import Mathlib

/-!
Verification development for the bootcamp_jira_cli repository.

The data model comes from src/models.rs and the store operations from
src/db.rs.  Rust `HashMap<u32, _>` values are modelled as association
lists with unique keys (`aget`, `ainsert`, `aremove` mirror `get`,
`insert`, `remove`).  Every mutating store operation of `JiraDatabase`
reads the persisted state, validates, mutates an in-memory copy and
writes it back; here each operation is a pure function from the
persisted `DBState` to a pair of the returned `Result` and the persisted
state after the call (unchanged on every early-return path, since those
paths never reach `write_db`).  `delete_story` may also panic via
`expect`, so it returns an `Option` whose `none` models the panic.
-/

/-- Work-item status, from `enum Status` in src/models.rs. -/
inductive Status where
  | Open
  | InProgress
  | Resolved
  | Closed
deriving DecidableEq, Repr

/-- Epic entity, from `struct Epic` in src/models.rs. -/
structure Epic where
  name : String
  description : String
  status : Status
  stories : List Nat
deriving DecidableEq, Repr

/-- Story entity, from `struct Story` in src/models.rs. -/
structure Story where
  name : String
  description : String
  status : Status
deriving DecidableEq, Repr

/-- `Epic::new` from src/models.rs. -/
def Epic.new (name description : String) : Epic :=
  { name := name, description := description, status := .Open, stories := [] }

/-- `Story::new` from src/models.rs. -/
def Story.new (name description : String) : Story :=
  { name := name, description := description, status := .Open }

/-- `struct DBState` from src/models.rs; the two `HashMap<u32, _>` fields
are modelled as association lists with unique keys. -/
structure DBState where
  last_item_id : Nat
  epics : List (Nat × Epic)
  stories : List (Nat × Story)
deriving DecidableEq, Repr

/-- Model of `HashMap::get`: the value stored under key `k`, if any. -/
def aget {α : Type} (k : Nat) : List (Nat × α) → Option α
  | [] => none
  | p :: rest => if p.1 = k then some p.2 else aget k rest

/-- Model of `HashMap::insert`: replace the entry if the key is present,
otherwise add a new entry. -/
def ainsert {α : Type} (k : Nat) (v : α) : List (Nat × α) → List (Nat × α)
  | [] => [(k, v)]
  | p :: rest => if p.1 = k then (k, v) :: rest else p :: ainsert k v rest

/-- Model of `HashMap::remove`: drop the entry stored under `k` (the
removed entry's presence is observed separately via `aget`). -/
def aremove {α : Type} (k : Nat) : List (Nat × α) → List (Nat × α)
  | [] => []
  | p :: rest => if p.1 = k then aremove k rest else p :: aremove k rest

/-- `enum JiraDatabaseError` from src/db.rs. -/
inductive JiraDatabaseError where
  | Read
  | Write
  | NoEpicWithID
  | NoStoryWithID
deriving DecidableEq, Repr

/-- `JiraDatabase::create_epic` (src/db.rs): allocate `last_item_id + 1`,
insert the epic under that id, bump the counter, persist, return the id. -/
def create_epic (epic : Epic) (s : DBState) : Except JiraDatabaseError Nat × DBState :=
  (.ok (s.last_item_id + 1),
    { s with
        epics := ainsert (s.last_item_id + 1) epic s.epics,
        last_item_id := s.last_item_id + 1 })

/-- `JiraDatabase::create_story` (src/db.rs): fail with `NoEpicWithID` if
`epic_id` is absent; otherwise allocate `last_item_id + 1`, insert the
story, push the id onto the epic's `stories`, bump the counter, persist. -/
def create_story (story : Story) (epic_id : Nat) (s : DBState) :
    Except JiraDatabaseError Nat × DBState :=
  match aget epic_id s.epics with
  | none => (.error .NoEpicWithID, s)
  | some epic =>
    (.ok (s.last_item_id + 1),
      { s with
          stories := ainsert (s.last_item_id + 1) story s.stories,
          epics := ainsert epic_id
            { epic with stories := epic.stories ++ [s.last_item_id + 1] } s.epics,
          last_item_id := s.last_item_id + 1 })

/-- `JiraDatabase::delete_epic` (src/db.rs): fail with `NoEpicWithID` if
`epic_id` is absent; otherwise remove every story listed by the epic from
the story map, then remove the epic itself (the second `ok_or` re-checks
presence, which cannot fail since the map was not touched in between),
and persist. -/
def delete_epic (epic_id : Nat) (s : DBState) : Except JiraDatabaseError Unit × DBState :=
  match aget epic_id s.epics with
  | none => (.error .NoEpicWithID, s)
  | some epic =>
    match aget epic_id s.epics with
    | none => (.error .NoEpicWithID, s)
    | some _ =>
      (.ok (),
        { s with
            stories := epic.stories.foldl (fun m sid => aremove sid m) s.stories,
            epics := aremove epic_id s.epics })

/-- The loop of Rust `slice::binary_search` over a `Vec<u32>` segment
`[left, right)`: compare at `mid = left + size / 2`, narrow the window,
return `some mid` on an exact match and `none` (the `Err` insertion-point
result, which `delete_story` turns into a panic via `expect`) when the
window empties. -/
def bsearchGo (xs : List Nat) (target left right : Nat) : Option Nat :=
  if h : left < right then
    if xs.getD (left + (right - left) / 2) 0 < target then
      bsearchGo xs target (left + (right - left) / 2 + 1) right
    else if target < xs.getD (left + (right - left) / 2) 0 then
      bsearchGo xs target left (left + (right - left) / 2)
    else some (left + (right - left) / 2)
  else none
termination_by right - left
decreasing_by
  all_goals omega

/-- `Vec::binary_search` as used in `JiraDatabase::delete_story`. -/
def binarySearch (xs : List Nat) (target : Nat) : Option Nat :=
  bsearchGo xs target 0 xs.length

/-- `JiraDatabase::delete_story` (src/db.rs): fail with `NoEpicWithID` if
`epic_id` is absent; fail with `NoStoryWithID` if `story_id` is not in
the epic's list, or listed but absent from the story map; otherwise
remove the story from the map and from the epic's list at the index
found by `binary_search` (whose `expect` panic is the `none` outcome),
and persist.  Every error path returns before `write_db`, so the
persisted state component is the input state there. -/
def delete_story (epic_id story_id : Nat) (s : DBState) :
    Option (Except JiraDatabaseError Unit × DBState) :=
  match aget epic_id s.epics with
  | none => some (.error .NoEpicWithID, s)
  | some epic =>
    if story_id ∈ epic.stories then
      match aget story_id s.stories with
      | none => some (.error .NoStoryWithID, s)
      | some _ =>
        match binarySearch epic.stories story_id with
        | none => none
        | some idx =>
          some (.ok (),
            { s with
                stories := aremove story_id s.stories,
                epics := ainsert epic_id
                  { epic with stories := epic.stories.eraseIdx idx } s.epics })
    else
      some (.error .NoStoryWithID, s)

/-- `JiraDatabase::update_epic_status` (src/db.rs): fail with
`NoEpicWithID` if absent; otherwise overwrite only the `status` field and
persist. -/
def update_epic_status (epic_id : Nat) (status : Status) (s : DBState) :
    Except JiraDatabaseError Unit × DBState :=
  match aget epic_id s.epics with
  | none => (.error .NoEpicWithID, s)
  | some epic =>
    (.ok (), { s with epics := ainsert epic_id { epic with status := status } s.epics })

/-- `JiraDatabase::update_story_status` (src/db.rs): the lookup is
against the story map, but an absent id is reported as `NoEpicWithID`;
otherwise overwrite only the `status` field and persist. -/
def update_story_status (story_id : Nat) (status : Status) (s : DBState) :
    Except JiraDatabaseError Unit × DBState :=
  match aget story_id s.stories with
  | none => (.error .NoEpicWithID, s)
  | some story =>
    (.ok (), { s with stories := ainsert story_id { story with status := status } s.stories })

/-- The empty persisted state (`MockDB::new` in src/db.rs and the empty
JSON file `{ "last_item_id": 0, "epics": {}, "stories": {} }`). -/
def initState : DBState :=
  { last_item_id := 0, epics := [], stories := [] }

/-- States reachable from the empty state by successful store
operations as the program issues them.  The only Epic values the program
ever passes to `create_epic` are built by `Epic::new` in the prompts
(src/ui/prompts.rs), whose `stories` list is empty, so the `create_epic`
step carries that fact as a hypothesis. -/
inductive Reachable : DBState → Prop where
  | init : Reachable initState
  | create_epic {s s' : DBState} {e : Epic} {id : Nat} :
      Reachable s → e.stories = [] → create_epic e s = (.ok id, s') → Reachable s'
  | create_story {s s' : DBState} {st : Story} {epic_id id : Nat} :
      Reachable s → create_story st epic_id s = (.ok id, s') → Reachable s'
  | delete_epic {s s' : DBState} {epic_id : Nat} :
      Reachable s → delete_epic epic_id s = (.ok (), s') → Reachable s'
  | delete_story {s s' : DBState} {epic_id story_id : Nat} :
      Reachable s → delete_story epic_id story_id s = some (.ok (), s') → Reachable s'
  | update_epic_status {s s' : DBState} {epic_id : Nat} {st : Status} :
      Reachable s → update_epic_status epic_id st s = (.ok (), s') → Reachable s'
  | update_story_status {s s' : DBState} {story_id : Nat} {st : Status} :
      Reachable s → update_story_status story_id st s = (.ok (), s') → Reachable s'

/-- `create_epic_prompt` (src/ui/prompts.rs) as a function of the two raw
input lines: trim both and build the epic through `Epic::new`. -/
def create_epic_prompt (nameLine descriptionLine : String) : Epic :=
  Epic.new nameLine.trim descriptionLine.trim

/-- `create_story_prompt` (src/ui/prompts.rs) as a function of the two
raw input lines: trim both and build the story through `Story::new`. -/
def create_story_prompt (nameLine descriptionLine : String) : Story :=
  Story.new nameLine.trim descriptionLine.trim

/-- Run a sequence of `create_epic` calls, collecting the returned ids;
a failed call (impossible for `create_epic`) stops the sequence. -/
def create_epics : List Epic → DBState → List Nat × DBState
  | [], s => ([], s)
  | e :: rest, s =>
    match create_epic e s with
    | (.ok id, s') =>
      match create_epics rest s' with
      | (ids, s'') => (id :: ids, s'')
    | (.error _, s') => ([], s')

/-- No dangling forward reference: every id listed in an epic's `stories`
is a key of the story map. -/
def StoryRefsOk (s : DBState) : Prop :=
  ∀ eid epic, aget eid s.epics = some epic →
    ∀ sid ∈ epic.stories, (aget sid s.stories).isSome

/-- The epic and story id spaces are disjoint. -/
def KeysDisjoint (s : DBState) : Prop :=
  ∀ k, (aget k s.epics).isSome → (aget k s.stories).isSome → False

/-- Every key of either map is at most `last_item_id`. -/
def KeysBounded (s : DBState) : Prop :=
  ∀ k, ((aget k s.epics).isSome ∨ (aget k s.stories).isSome) → k ≤ s.last_item_id

/-- The referential-integrity invariant of the store. -/
def StoreInv (s : DBState) : Prop :=
  StoryRefsOk s ∧ KeysDisjoint s ∧ KeysBounded s

/-- Every epic's `stories` list is strictly increasing. -/
def SortedStories (s : DBState) : Prop :=
  ∀ eid epic, aget eid s.epics = some epic → epic.stories.Pairwise (· < ·)

/-- No story id is listed by two distinct epics. -/
def OwnersDisjoint (s : DBState) : Prop :=
  ∀ k1 k2 e1 e2, k1 ≠ k2 → aget k1 s.epics = some e1 → aget k2 s.epics = some e2 →
    ∀ sid, sid ∈ e1.stories → sid ∉ e2.stories

/-- The inductive invariant maintained by the store operations. -/
def FullInv (s : DBState) : Prop :=
  StoreInv s ∧ OwnersDisjoint s ∧ SortedStories s

/-!
JSON model for the production persistence strategy (`JSONFileDatabase`
in src/db.rs).  `serde_json::to_writer` and `serde_json::from_str` are
modelled at the level of the JSON document tree: serde's derived codecs
map a struct to an object with one field per struct field in declaration
order, a unit enum variant to its name as a string, a `Vec<u32>` to an
array of numbers, and a `HashMap<u32, _>` to an object whose keys are
the decimal strings of the numeric keys; deserialization looks fields up
by name.  The textual layer below (printing and parsing the document
tree) is not modelled.
-/

/-- JSON document tree. -/
inductive Json where
  | num (n : Nat)
  | str (s : String)
  | arr (items : List Json)
  | obj (fields : List (String × Json))

/-- serde serialization of `Status` (externally tagged unit variants). -/
def statusToJson : Status → Json
  | .Open => .str "Open"
  | .InProgress => .str "InProgress"
  | .Resolved => .str "Resolved"
  | .Closed => .str "Closed"

/-- serde deserialization of `Status`. -/
def statusFromJson : Json → Option Status
  | .str "Open" => some .Open
  | .str "InProgress" => some .InProgress
  | .str "Resolved" => some .Resolved
  | .str "Closed" => some .Closed
  | _ => none

/-- The decimal digit `d` (0–9) as a character. -/
def digitChar (d : Nat) : Char := Char.ofNat (48 + d)

/-- Decimal string of a map key, as serde writes `HashMap<u32, _>` keys. -/
def natKeyString (n : Nat) : String :=
  if n = 0 then "0" else ⟨(Nat.digits 10 n).reverse.map digitChar⟩

/-- Parse one decimal digit character. -/
def charDigit (c : Char) : Option Nat :=
  if 48 ≤ c.toNat ∧ c.toNat ≤ 57 then some (c.toNat - 48) else none

/-- Traverse a list with a fallible function, failing if any element fails. -/
def traverseOpt {α β : Type} (f : α → Option β) : List α → Option (List β)
  | [] => some []
  | a :: rest =>
    match f a, traverseOpt f rest with
    | some b, some bs => some (b :: bs)
    | _, _ => none

/-- Parse a decimal map key back to a number. -/
def keyToNat (s : String) : Option Nat :=
  if s.data.isEmpty then none
  else
    match traverseOpt charDigit s.data with
    | none => none
    | some ds => some (Nat.ofDigits 10 ds.reverse)

/-- serde serialization of `Epic` (fields in declaration order). -/
def epicToJson (e : Epic) : Json :=
  .obj [("name", .str e.name), ("description", .str e.description),
        ("status", statusToJson e.status),
        ("stories", .arr (e.stories.map Json.num))]

/-- serde serialization of `Story` (fields in declaration order). -/
def storyToJson (st : Story) : Json :=
  .obj [("name", .str st.name), ("description", .str st.description),
        ("status", statusToJson st.status)]

/-- Look a field up by name in a JSON object's field list. -/
def jGet (fields : List (String × Json)) (key : String) : Option Json :=
  (fields.find? (fun p => p.1 == key)).map (fun p => p.2)

/-- Deserialize a JSON number. -/
def numFromJson : Json → Option Nat
  | .num n => some n
  | _ => none

/-- serde deserialization of `Story`: look the three fields up by name. -/
def storyFromJson : Json → Option Story
  | .obj fields =>
    match jGet fields "name", jGet fields "description", jGet fields "status" with
    | some (.str name), some (.str description), some stJ =>
      (statusFromJson stJ).map
        (fun st => { name := name, description := description, status := st })
    | _, _, _ => none
  | _ => none

/-- serde deserialization of `Epic`: look the four fields up by name. -/
def epicFromJson : Json → Option Epic
  | .obj fields =>
    match jGet fields "name", jGet fields "description", jGet fields "status",
          jGet fields "stories" with
    | some (.str name), some (.str description), some stJ, some (.arr items) =>
      match statusFromJson stJ, traverseOpt numFromJson items with
      | some st, some ids =>
        some { name := name, description := description, status := st, stories := ids }
      | _, _ => none
    | _, _, _, _ => none
  | _ => none

/-- serde serialization of a `HashMap<u32, _>`: an object with decimal
string keys. -/
def mapToJson {α : Type} (f : α → Json) (l : List (Nat × α)) : Json :=
  .obj (l.map (fun p => (natKeyString p.1, f p.2)))

/-- Deserialize one map entry: parse the decimal key and the value. -/
def entryFromJson {α : Type} (f : Json → Option α) (p : String × Json) :
    Option (Nat × α) :=
  match keyToNat p.1, f p.2 with
  | some k, some v => some (k, v)
  | _, _ => none

/-- serde deserialization of a `HashMap<u32, _>` from a JSON object. -/
def mapFromJson {α : Type} (f : Json → Option α) : Json → Option (List (Nat × α))
  | .obj fields => traverseOpt (entryFromJson f) fields
  | _ => none

/-- serde serialization of `DBState` (fields in declaration order), the
document `JSONFileDatabase::write_db` produces. -/
def dbStateToJson (s : DBState) : Json :=
  .obj [("last_item_id", .num s.last_item_id),
        ("epics", mapToJson epicToJson s.epics),
        ("stories", mapToJson storyToJson s.stories)]

/-- serde deserialization of `DBState`, the reading half of
`JSONFileDatabase::read_db`. -/
def dbStateFromJson : Json → Option DBState
  | .obj fields =>
    match jGet fields "last_item_id", jGet fields "epics", jGet fields "stories" with
    | some (.num last), some epicsJ, some storiesJ =>
      match mapFromJson epicFromJson epicsJ, mapFromJson storyFromJson storiesJ with
      | some epics, some stories =>
        some { last_item_id := last, epics := epics, stories := stories }
      | _, _ => none
    | _, _, _ => none
  | _ => none

/-- A concrete epic used in witnesses. -/
def epicWit : Epic := Epic.new "" ""

/-- A concrete story used in witnesses. -/
def storyWit : Story := Story.new "" ""

/-- State after `create_epic` on the empty state: epic 1, counter 1. -/
def stateWit1 : DBState := (create_epic epicWit initState).2

/-- State after also creating a story under epic 1: story 2, counter 2. -/
def stateWit2 : DBState := (create_story storyWit 1 stateWit1).2

/-- State after also creating a second epic: epic 3, counter 3. -/
def stateWit3 : DBState := (create_epic epicWit stateWit2).2

/-- The epic stored under id 1 in `stateWit2` and `stateWit3`. -/
def epicWit2 : Epic :=
  { name := "", description := "", status := .Open, stories := [2] }

/-- An ill-formed state whose epic 1 lists story 2 while the story map is
empty; used to exercise the listed-but-unmapped error path of
`delete_story`. -/
def stateDangling : DBState :=
  { last_item_id := 2,
    epics := [(1, { name := "", description := "", status := .Open, stories := [2] })],
    stories := [] }

/-! ### Association-list lemmas -/

theorem aget_ainsert {α : Type} (k j : Nat) (v : α) (l : List (Nat × α)) :
    aget k (ainsert j v l) = if k = j then some v else aget k l := by
  induction l with
  | nil =>
    by_cases h : k = j
    · simp [aget, ainsert, h]
    · simp [aget, ainsert, h, Ne.symm h]
  | cons p rest ih =>
    by_cases hp : p.1 = j
    · by_cases hk : k = j
      · simp [ainsert, aget, hp, hk]
      · simp [ainsert, aget, hp, hk, Ne.symm hk]
    · by_cases hpk : p.1 = k
      · have hk : ¬ k = j := fun h => hp (hpk.trans h)
        simp [ainsert, aget, hp, hpk, hk]
      · simp [ainsert, aget, hp, hpk, ih]

theorem aget_aremove {α : Type} (k j : Nat) (l : List (Nat × α)) :
    aget k (aremove j l) = if k = j then none else aget k l := by
  induction l with
  | nil => by_cases h : k = j <;> simp [aget, aremove, h]
  | cons p rest ih =>
    by_cases hp : p.1 = j
    · by_cases hk : k = j
      · subst hk
        simp [aremove, hp, ih]
      · simp [aremove, aget, hp, hk, Ne.symm hk, ih]
    · by_cases hpk : p.1 = k
      · have hk : ¬ k = j := fun h => hp (hpk.trans h)
        simp [aremove, aget, hp, hpk, hk]
      · simp [aremove, aget, hp, hpk, ih]

theorem aget_foldl_aremove {α : Type} (ids : List Nat) (m : List (Nat × α)) (k : Nat) :
    aget k (ids.foldl (fun acc sid => aremove sid acc) m) =
      if k ∈ ids then none else aget k m := by
  induction ids generalizing m with
  | nil => simp
  | cons i rest ih =>
    simp only [List.foldl_cons]
    rw [ih]
    by_cases hk : k ∈ rest
    · simp [hk]
    · by_cases hki : k = i
      · simp [hk, hki, aget_aremove]
      · simp [hk, hki, aget_aremove, List.mem_cons]

/-! ### Simple operation-level facts -/

theorem create_epics_spec (es : List Epic) (s : DBState) :
    (create_epics es s).1 = (List.range es.length).map (fun i => s.last_item_id + 1 + i) ∧
    (create_epics es s).2.last_item_id = s.last_item_id + es.length := by
  induction es generalizing s with
  | nil => simp [create_epics]
  | cons e rest ih =>
    obtain ⟨h1, h2⟩ := ih (create_epic e s).2
    simp only [create_epics, create_epic] at h1 h2 ⊢
    refine ⟨?_, by simp only [List.length_cons]; omega⟩
    simp only [List.length_cons]
    rw [h1, List.range_succ_eq_map, List.map_cons, List.map_map]
    refine congrArg₂ List.cons (by omega) ?_
    apply List.map_congr_left
    intro a _
    simp only [Function.comp_apply]
    omega

/-- C10: `Epic::new` yields status `Open` and an empty `stories` list,
`Story::new` yields status `Open`, and the interactive prompts construct
entities only through these constructors, so every work item created
through the UI starts `Open`. -/
theorem new_items_start_open (name description nameLine descLine : String) :
    (Epic.new name description).status = .Open ∧
    (Epic.new name description).stories = [] ∧
    (Story.new name description).status = .Open ∧
    (create_epic_prompt nameLine descLine).status = .Open ∧
    (create_epic_prompt nameLine descLine).stories = [] ∧
    (create_story_prompt nameLine descLine).status = .Open :=
  ⟨rfl, rfl, rfl, rfl, rfl, rfl⟩

/-- C6: `update_story_status` with an absent story id fails with the
`NoEpicWithID` error kind (not `NoStoryWithID`), leaving the state as it
was, even though the lookup is performed against the story map. -/
theorem update_story_status_absent_kind (s : DBState) (story_id : Nat) (st : Status)
    (h : aget story_id s.stories = none) :
    update_story_status story_id st s = (.error .NoEpicWithID, s) := by
  simp [update_story_status, h]

theorem update_story_status_absent_kind_witness :
    aget 5 initState.stories = none ∧
      update_story_status 5 .Closed initState = (.error .NoEpicWithID, initState) :=
  ⟨rfl, update_story_status_absent_kind initState 5 .Closed rfl⟩

/-- C5: every `create_epic` call returns `last_item_id + 1`, stores the
epic under that id and sets `last_item_id` to it in the same persisted
state, so over any sequence of calls the returned ids increase by exactly
one each time. -/
theorem create_epic_id_allocation (s : DBState) (es : List Epic) (e : Epic) :
    (create_epics es s).1 = (List.range es.length).map (fun i => s.last_item_id + 1 + i) ∧
    (create_epics es s).2.last_item_id = s.last_item_id + es.length ∧
    (create_epic e s).1 = .ok (s.last_item_id + 1) ∧
    (create_epic e s).2.last_item_id = s.last_item_id + 1 ∧
    aget (s.last_item_id + 1) (create_epic e s).2.epics = some e :=
  ⟨(create_epics_spec es s).1, (create_epics_spec es s).2, rfl, rfl, by
    simp [create_epic, aget_ainsert]⟩

/-- C2: when validation fails (the referenced epic or story id is
absent), each mutating operation returns the corresponding error and the
persisted state after the call is exactly the state before it — no
partial write. -/
theorem failed_validation_no_mutation (s : DBState) (story : Story)
    (epic_id story_id : Nat) (st : Status) :
    (aget epic_id s.epics = none →
      create_story story epic_id s = (.error .NoEpicWithID, s) ∧
      delete_epic epic_id s = (.error .NoEpicWithID, s) ∧
      delete_story epic_id story_id s = some (.error .NoEpicWithID, s) ∧
      update_epic_status epic_id st s = (.error .NoEpicWithID, s)) ∧
    (aget story_id s.stories = none →
      update_story_status story_id st s = (.error .NoEpicWithID, s)) ∧
    (∀ epic, aget epic_id s.epics = some epic → story_id ∉ epic.stories →
      delete_story epic_id story_id s = some (.error .NoStoryWithID, s)) ∧
    (∀ epic, aget epic_id s.epics = some epic → story_id ∈ epic.stories →
      aget story_id s.stories = none →
      delete_story epic_id story_id s = some (.error .NoStoryWithID, s)) := by
  refine ⟨fun h => ⟨?_, ?_, ?_, ?_⟩, fun h => ?_, fun epic h hm => ?_, fun epic h hm hs => ?_⟩
  · simp [create_story, h]
  · simp [delete_epic, h]
  · simp [delete_story, h]
  · simp [update_epic_status, h]
  · simp [update_story_status, h]
  · simp [delete_story, h, hm]
  · simp [delete_story, h, hm, hs]

theorem failed_validation_no_mutation_witness :
    aget 99 stateWit2.epics = none ∧
    aget 99 stateWit2.stories = none ∧
    create_story storyWit 99 stateWit2 = (.error .NoEpicWithID, stateWit2) ∧
    delete_epic 99 stateWit2 = (.error .NoEpicWithID, stateWit2) ∧
    delete_story 99 99 stateWit2 = some (.error .NoEpicWithID, stateWit2) ∧
    update_epic_status 99 .Closed stateWit2 = (.error .NoEpicWithID, stateWit2) ∧
    update_story_status 99 .Closed stateWit2 = (.error .NoEpicWithID, stateWit2) ∧
    delete_story 1 99 stateWit2 = some (.error .NoStoryWithID, stateWit2) ∧
    delete_story 1 2 stateDangling = some (.error .NoStoryWithID, stateDangling) := by
  have h := failed_validation_no_mutation stateWit2 storyWit 99 99 .Closed
  have h2 := failed_validation_no_mutation stateWit2 storyWit 1 99 .Closed
  have h3 := failed_validation_no_mutation stateDangling storyWit 1 2 .Closed
  exact ⟨rfl, rfl, (h.1 rfl).1, (h.1 rfl).2.1, (h.1 rfl).2.2.1, (h.1 rfl).2.2.2,
    h.2.1 rfl,
    h2.2.2.1 { name := "", description := "", status := .Open, stories := [2] } rfl
      (by decide),
    h3.2.2.2 { name := "", description := "", status := .Open, stories := [2] } rfl
      (by decide) rfl⟩

/-- C7: a successful status update rewrites the target entity to a copy
whose only changed field is `status` (name, description and, for epics,
the `stories` list are those of the old entity), leaves the sibling map,
`last_item_id` and every other entry of the target map unchanged. -/
theorem update_status_frame (s : DBState) (st : Status) :
    (∀ epic_id epic, aget epic_id s.epics = some epic →
      update_epic_status epic_id st s =
        (.ok (), { s with epics := ainsert epic_id { epic with status := st } s.epics }) ∧
      aget epic_id (ainsert epic_id { epic with status := st } s.epics) =
        some { name := epic.name, description := epic.description,
               status := st, stories := epic.stories } ∧
      (∀ k, k ≠ epic_id →
        aget k (ainsert epic_id { epic with status := st } s.epics) = aget k s.epics)) ∧
    (∀ story_id story, aget story_id s.stories = some story →
      update_story_status story_id st s =
        (.ok (), { s with stories := ainsert story_id { story with status := st } s.stories }) ∧
      aget story_id (ainsert story_id { story with status := st } s.stories) =
        some { name := story.name, description := story.description, status := st } ∧
      (∀ k, k ≠ story_id →
        aget k (ainsert story_id { story with status := st } s.stories) = aget k s.stories)) := by
  constructor
  · intro epic_id epic h
    refine ⟨by simp [update_epic_status, h], by simp [aget_ainsert], fun k hk => ?_⟩
    simp [aget_ainsert, hk]
  · intro story_id story h
    refine ⟨by simp [update_story_status, h], by simp [aget_ainsert], fun k hk => ?_⟩
    simp [aget_ainsert, hk]

theorem update_status_frame_witness :
    aget 1 stateWit2.epics =
      some { name := "", description := "", status := .Open, stories := [2] } ∧
    update_epic_status 1 .Closed stateWit2 =
      (.ok (), { stateWit2 with
        epics := ainsert 1
          { name := "", description := "", status := .Closed, stories := [2] }
          stateWit2.epics }) := by
  have h := (update_status_frame stateWit2 .Closed).1 1
    { name := "", description := "", status := .Open, stories := [2] } rfl
  exact ⟨rfl, h.1⟩

/-- C3: when `epic_id` exists, `delete_epic` succeeds, removes the epic
entry and every story id listed by it from the story map, and leaves
every other epic, every unreferenced story and `last_item_id` unchanged. -/
theorem delete_epic_cascade (s : DBState) (epic_id : Nat) (epic : Epic)
    (h : aget epic_id s.epics = some epic) :
    ∃ s', delete_epic epic_id s = (.ok (), s') ∧
      aget epic_id s'.epics = none ∧
      (∀ k, k ≠ epic_id → aget k s'.epics = aget k s.epics) ∧
      (∀ sid ∈ epic.stories, aget sid s'.stories = none) ∧
      (∀ sid, sid ∉ epic.stories → aget sid s'.stories = aget sid s.stories) ∧
      s'.last_item_id = s.last_item_id := by
  refine ⟨{ s with
      stories := epic.stories.foldl (fun m sid => aremove sid m) s.stories,
      epics := aremove epic_id s.epics }, ?_, ?_, ?_, ?_, ?_, rfl⟩
  · simp [delete_epic, h]
  · simp [aget_aremove]
  · intro k hk
    simp [aget_aremove, hk]
  · intro sid hs
    simp [aget_foldl_aremove, hs]
  · intro sid hs
    simp [aget_foldl_aremove, hs]

theorem delete_epic_cascade_witness :
    aget 1 stateWit2.epics = some epicWit2 ∧
    (∃ s', delete_epic 1 stateWit2 = (.ok (), s') ∧
      aget 1 s'.epics = none ∧
      (∀ k, k ≠ 1 → aget k s'.epics = aget k stateWit2.epics) ∧
      (∀ sid ∈ epicWit2.stories, aget sid s'.stories = none) ∧
      (∀ sid, sid ∉ epicWit2.stories → aget sid s'.stories = aget sid stateWit2.stories) ∧
      s'.last_item_id = stateWit2.last_item_id) :=
  ⟨rfl, delete_epic_cascade stateWit2 1 epicWit2 rfl⟩

/-! ### Binary search and eraseIdx lemmas -/

theorem bsearchGo_found (xs : List Nat) (a : Nat)
    (hsort : ∀ i j : Nat, i < j → j < xs.length → xs.getD i 0 < xs.getD j 0) :
    ∀ n left right, right - left ≤ n → right ≤ xs.length →
      (∃ i, left ≤ i ∧ i < right ∧ xs.getD i 0 = a) →
      (bsearchGo xs a left right).isSome := by
  intro n
  induction n with
  | zero =>
    intro left right hn _ hex
    obtain ⟨i, h1, h2, _⟩ := hex
    omega
  | succ n ih =>
    intro left right hn hlen hex
    obtain ⟨i, hi1, hi2, hi3⟩ := hex
    have hlr : left < right := Nat.lt_of_le_of_lt hi1 hi2
    rw [bsearchGo, dif_pos hlr]
    by_cases hcmp1 : xs.getD (left + (right - left) / 2) 0 < a
    · rw [if_pos hcmp1]
      apply ih _ _ (by omega) hlen
      refine ⟨i, ?_, hi2, hi3⟩
      by_contra hcon
      push_neg at hcon
      rcases Nat.lt_or_ge i (left + (right - left) / 2) with hlt | hge
      · have := hsort i (left + (right - left) / 2) hlt (by omega)
        omega
      · have heq : i = left + (right - left) / 2 := by omega
        rw [heq] at hi3
        omega
    · rw [if_neg hcmp1]
      by_cases hcmp2 : a < xs.getD (left + (right - left) / 2) 0
      · rw [if_pos hcmp2]
        apply ih _ _ (by omega) (by omega)
        refine ⟨i, hi1, ?_, hi3⟩
        by_contra hcon
        push_neg at hcon
        rcases Nat.lt_or_ge (left + (right - left) / 2) i with hlt | hge
        · have := hsort (left + (right - left) / 2) i hlt (by omega)
          omega
        · have heq : i = left + (right - left) / 2 := by omega
          rw [heq] at hi3
          omega
      · rw [if_neg hcmp2]
        simp

theorem bsearchGo_correct (xs : List Nat) (a : Nat) :
    ∀ n left right idx, right - left ≤ n → right ≤ xs.length →
      bsearchGo xs a left right = some idx →
      idx < xs.length ∧ xs.getD idx 0 = a := by
  intro n
  induction n with
  | zero =>
    intro left right idx hn hlen heq
    rw [bsearchGo, dif_neg (by omega : ¬ left < right)] at heq
    cases heq
  | succ n ih =>
    intro left right idx hn hlen heq
    by_cases hlr : left < right
    · rw [bsearchGo, dif_pos hlr] at heq
      by_cases h1 : xs.getD (left + (right - left) / 2) 0 < a
      · rw [if_pos h1] at heq
        exact ih _ _ _ (by omega) hlen heq
      · rw [if_neg h1] at heq
        by_cases h2 : a < xs.getD (left + (right - left) / 2) 0
        · rw [if_pos h2] at heq
          exact ih _ _ _ (by omega) (by omega) heq
        · rw [if_neg h2] at heq
          cases heq
          exact ⟨by omega, by omega⟩
    · rw [bsearchGo, dif_neg hlr] at heq
      cases heq

theorem binarySearch_correct (xs : List Nat) (a idx : Nat)
    (h : binarySearch xs a = some idx) : idx < xs.length ∧ xs.getD idx 0 = a :=
  bsearchGo_correct xs a xs.length 0 xs.length idx (by omega) (Nat.le_refl _) h

theorem getD_of_lt (xs : List Nat) (i : Nat) (h : i < xs.length) :
    xs.getD i 0 = xs.get ⟨i, h⟩ := by
  simp [List.getD_eq_getElem?_getD, List.getElem?_eq_getElem, h]

theorem binarySearch_found (xs : List Nat) (a : Nat)
    (hsort : xs.Pairwise (· < ·)) (hmem : a ∈ xs) :
    (binarySearch xs a).isSome := by
  have hs : ∀ i j : Nat, i < j → j < xs.length → xs.getD i 0 < xs.getD j 0 := by
    intro i j hij hj
    have hi : i < xs.length := Nat.lt_trans hij hj
    have := List.pairwise_iff_get.mp hsort ⟨i, hi⟩ ⟨j, hj⟩ hij
    rw [getD_of_lt xs i hi, getD_of_lt xs j hj]
    exact this
  obtain ⟨⟨i, hi⟩, hgi⟩ := List.mem_iff_get.mp hmem
  refine bsearchGo_found xs a hs xs.length 0 xs.length (by omega) (Nat.le_refl _)
    ⟨i, Nat.zero_le _, hi, ?_⟩
  rw [getD_of_lt xs i hi]
  exact hgi

theorem getD_not_mem_eraseIdx (xs : List Nat) :
    ∀ idx a, xs.Pairwise (· < ·) → idx < xs.length → xs.getD idx 0 = a →
      a ∉ xs.eraseIdx idx := by
  induction xs with
  | nil =>
    intro idx a _ h
    simp at h
  | cons x t ih =>
    intro idx a hp hlt hget
    cases idx with
    | zero =>
      simp only [List.getD_cons_zero] at hget
      subst hget
      simp only [List.eraseIdx_cons_zero]
      intro hmem
      have := (List.pairwise_cons.mp hp).1 _ hmem
      omega
    | succ idx =>
      simp only [List.getD_cons_succ] at hget
      simp only [List.eraseIdx_cons_succ, List.mem_cons]
      rintro (rfl | hmem)
      · have ha : a ∈ t := by
          rw [← hget]
          rw [getD_of_lt t idx (by simpa using hlt)]
          exact List.get_mem t idx _
        have := (List.pairwise_cons.mp hp).1 _ ha
        omega
      · exact ih idx a (List.pairwise_cons.mp hp).2 (by simpa using hlt) hget hmem

theorem mem_eraseIdx_iff_ne (xs : List Nat) :
    ∀ idx a x, idx < xs.length → xs.getD idx 0 = a → x ≠ a →
      (x ∈ xs.eraseIdx idx ↔ x ∈ xs) := by
  induction xs with
  | nil =>
    intro idx a x h
    simp at h
  | cons y t ih =>
    intro idx a x hlt hget hne
    cases idx with
    | zero =>
      simp only [List.getD_cons_zero] at hget
      subst hget
      simp [List.eraseIdx_cons_zero, List.mem_cons, hne]
    | succ idx =>
      simp only [List.getD_cons_succ] at hget
      simp only [List.eraseIdx_cons_succ, List.mem_cons]
      rw [ih idx a x (by simpa using hlt) hget hne]

/-- C4: with `epic_id` present, `delete_story` fails with `NoStoryWithID`
and leaves the state untouched whenever `story_id` is not in that epic's
list — even if `story_id` is a valid story key elsewhere — and, when
`story_id` is listed (and mapped, with the list sorted as reachable
states guarantee), it removes the story both from the story map and from
the epic's list, touching nothing else. -/
theorem delete_story_spec (s : DBState) (epic_id story_id : Nat) (epic : Epic)
    (h : aget epic_id s.epics = some epic) :
    (story_id ∉ epic.stories →
      delete_story epic_id story_id s = some (.error .NoStoryWithID, s)) ∧
    (story_id ∈ epic.stories → (aget story_id s.stories).isSome →
      epic.stories.Pairwise (· < ·) →
      ∃ s' l', delete_story epic_id story_id s = some (.ok (), s') ∧
        aget story_id s'.stories = none ∧
        aget epic_id s'.epics =
          some { name := epic.name, description := epic.description,
                 status := epic.status, stories := l' } ∧
        story_id ∉ l' ∧
        (∀ x, x ≠ story_id → (x ∈ l' ↔ x ∈ epic.stories)) ∧
        (∀ k, k ≠ story_id → aget k s'.stories = aget k s.stories) ∧
        (∀ k, k ≠ epic_id → aget k s'.epics = aget k s.epics) ∧
        s'.last_item_id = s.last_item_id) := by
  constructor
  · intro hnm
    simp [delete_story, h, hnm]
  · intro hm hsome hsort
    obtain ⟨st, hst⟩ := Option.isSome_iff_exists.mp hsome
    obtain ⟨idx, hidx⟩ := Option.isSome_iff_exists.mp
      (binarySearch_found _ _ hsort hm)
    obtain ⟨hlt, hget⟩ := binarySearch_correct _ _ _ hidx
    refine ⟨{ s with
        stories := aremove story_id s.stories,
        epics := ainsert epic_id
          { epic with stories := epic.stories.eraseIdx idx } s.epics },
      epic.stories.eraseIdx idx, ?_, ?_, ?_, ?_, ?_, ?_, ?_, rfl⟩
    · simp [delete_story, h, hm, hst, hidx]
    · simp [aget_aremove]
    · simp [aget_ainsert]
    · exact getD_not_mem_eraseIdx _ idx story_id hsort hlt hget
    · intro x hx
      exact mem_eraseIdx_iff_ne _ idx story_id x hlt hget hx
    · intro k hk
      simp [aget_aremove, hk]
    · intro k hk
      simp [aget_ainsert, hk]

theorem delete_story_spec_witness :
    aget 3 stateWit3.epics = some epicWit ∧
    aget 2 stateWit3.stories = some storyWit ∧
    delete_story 3 2 stateWit3 = some (.error .NoStoryWithID, stateWit3) ∧
    aget 1 stateWit2.epics = some epicWit2 ∧
    (∃ s' l', delete_story 1 2 stateWit2 = some (.ok (), s') ∧
      aget 2 s'.stories = none ∧
      aget 1 s'.epics =
        some { name := epicWit2.name, description := epicWit2.description,
               status := epicWit2.status, stories := l' } ∧
      2 ∉ l' ∧
      (∀ x, x ≠ 2 → (x ∈ l' ↔ x ∈ epicWit2.stories)) ∧
      (∀ k, k ≠ 2 → aget k s'.stories = aget k stateWit2.stories) ∧
      (∀ k, k ≠ 1 → aget k s'.epics = aget k stateWit2.epics) ∧
      s'.last_item_id = stateWit2.last_item_id) :=
  ⟨rfl, rfl,
    (delete_story_spec stateWit3 3 2 epicWit rfl).1 (by decide),
    rfl,
    (delete_story_spec stateWit2 1 2 epicWit2 rfl).2 (by decide) (by decide)
      (by decide)⟩

/-! ### The inductive invariant -/

theorem fullInv_init : FullInv initState := by
  refine ⟨⟨?_, ?_, ?_⟩, ?_, ?_⟩
  · intro eid epic h
    simp [initState, aget] at h
  · intro k h
    simp [initState, aget] at h
  · intro k h
    rcases h with h | h <;> simp [initState, aget] at h
  · intro k1 k2 e1 e2 _ h
    simp [initState, aget] at h
  · intro eid epic h
    simp [initState, aget] at h

theorem story_ref_le_last {s : DBState} (hinv : StoreInv s) {eid : Nat} {epic : Epic}
    (h : aget eid s.epics = some epic) {sid : Nat} (hm : sid ∈ epic.stories) :
    sid ≤ s.last_item_id :=
  hinv.2.2 sid (Or.inr (hinv.1 eid epic h sid hm))

theorem fullInv_create_epic {s s' : DBState} {e : Epic} {id : Nat}
    (hinv : FullInv s) (he : e.stories = []) (heq : create_epic e s = (.ok id, s')) :
    FullInv s' := by
  obtain ⟨⟨hrefs, hdisj, hbound⟩, hown, hsort⟩ := hinv
  have hs' : s' = { s with
      epics := ainsert (s.last_item_id + 1) e s.epics,
      last_item_id := s.last_item_id + 1 } := (congrArg Prod.snd heq).symm
  subst hs'
  refine ⟨⟨?_, ?_, ?_⟩, ?_, ?_⟩
  · intro eid epic h
    simp only [aget_ainsert] at h
    by_cases hc : eid = s.last_item_id + 1
    · rw [if_pos hc] at h
      cases h
      intro sid hm
      rw [he] at hm
      simp at hm
    · rw [if_neg hc] at h
      intro sid hm
      exact hrefs eid epic h sid hm
  · intro k h1 h2
    simp only [aget_ainsert] at h1
    simp only at h2
    by_cases hc : k = s.last_item_id + 1
    · have := hbound k (Or.inr h2)
      omega
    · rw [if_neg hc] at h1
      exact hdisj k h1 h2
  · intro k h
    simp only [aget_ainsert] at h
    rcases h with h | h
    · by_cases hc : k = s.last_item_id + 1
      · show k ≤ s.last_item_id + 1
        omega
      · rw [if_neg hc] at h
        have := hbound k (Or.inl h)
        show k ≤ s.last_item_id + 1
        omega
    · have := hbound k (Or.inr h)
      show k ≤ s.last_item_id + 1
      omega
  · intro k1 k2 e1 e2 hne h1 h2
    simp only [aget_ainsert] at h1 h2
    by_cases hc1 : k1 = s.last_item_id + 1
    · rw [if_pos hc1] at h1
      cases h1
      intro sid hm
      rw [he] at hm
      simp at hm
    · rw [if_neg hc1] at h1
      by_cases hc2 : k2 = s.last_item_id + 1
      · rw [if_pos hc2] at h2
        cases h2
        intro sid _
        rw [he]
        simp
      · rw [if_neg hc2] at h2
        exact hown k1 k2 e1 e2 hne h1 h2
  · intro eid epic h
    simp only [aget_ainsert] at h
    by_cases hc : eid = s.last_item_id + 1
    · rw [if_pos hc] at h
      cases h
      rw [he]
      simp
    · rw [if_neg hc] at h
      exact hsort eid epic h

theorem fullInv_create_story {s s' : DBState} {st : Story} {epic_id id : Nat}
    (hinv : FullInv s) (heq : create_story st epic_id s = (.ok id, s')) :
    FullInv s' := by
  obtain ⟨⟨hrefs, hdisj, hbound⟩, hown, hsort⟩ := hinv
  cases hef : aget epic_id s.epics with
  | none => simp [create_story, hef] at heq
  | some epic =>
    simp only [create_story, hef] at heq
    have hs' : s' = { s with
        stories := ainsert (s.last_item_id + 1) st s.stories,
        epics := ainsert epic_id
          { epic with stories := epic.stories ++ [s.last_item_id + 1] } s.epics,
        last_item_id := s.last_item_id + 1 } := (congrArg Prod.snd heq).symm
    subst hs'
    have heple : epic_id ≤ s.last_item_id := hbound epic_id (Or.inl (by simp [hef]))
    refine ⟨⟨?_, ?_, ?_⟩, ?_, ?_⟩
    · intro eid e h
      simp only [aget_ainsert] at h
      intro sid hm
      simp only [aget_ainsert]
      by_cases hsn : sid = s.last_item_id + 1
      · simp [hsn]
      · rw [if_neg hsn]
        by_cases hc : eid = epic_id
        · rw [if_pos hc] at h
          cases h
          rcases List.mem_append.mp hm with hmo | hmn
          · exact hrefs epic_id epic hef sid hmo
          · simp at hmn
            exact absurd hmn hsn
        · rw [if_neg hc] at h
          exact hrefs eid e h sid hm
    · intro k h1 h2
      simp only [aget_ainsert] at h1 h2
      by_cases hkn : k = s.last_item_id + 1
      · have hke : ¬ k = epic_id := by omega
        rw [if_neg hke] at h1
        have := hbound k (Or.inl h1)
        omega
      · rw [if_neg hkn] at h2
        by_cases hke : k = epic_id
        · subst hke
          exact hdisj k (by simp [hef]) h2
        · rw [if_neg hke] at h1
          exact hdisj k h1 h2
    · intro k h
      show k ≤ s.last_item_id + 1
      simp only [aget_ainsert] at h
      rcases h with h | h
      · by_cases hke : k = epic_id
        · omega
        · rw [if_neg hke] at h
          have := hbound k (Or.inl h)
          omega
      · by_cases hkn : k = s.last_item_id + 1
        · omega
        · rw [if_neg hkn] at h
          have := hbound k (Or.inr h)
          omega
    · intro k1 k2 e1 e2 hne h1 h2
      simp only [aget_ainsert] at h1 h2
      by_cases hc1 : k1 = epic_id
      · rw [if_pos hc1] at h1
        cases h1
        have hc2 : ¬ k2 = epic_id := fun hh => hne (hc1.trans hh.symm)
        rw [if_neg hc2] at h2
        intro sid hm
        rcases List.mem_append.mp hm with hmo | hmn
        · exact hown epic_id k2 epic e2 (hc1 ▸ hne) hef h2 sid hmo
        · simp at hmn
          subst hmn
          intro hmem2
          have hsome := hrefs k2 e2 h2 _ hmem2
          have := hbound _ (Or.inr hsome)
          omega
      · rw [if_neg hc1] at h1
        by_cases hc2 : k2 = epic_id
        · rw [if_pos hc2] at h2
          cases h2
          intro sid hm
          intro hmem2
          rcases List.mem_append.mp hmem2 with hmo | hmn
          · exact hown k1 epic_id e1 epic (hc2 ▸ hne) h1 hef sid hm hmo
          · simp at hmn
            subst hmn
            have hsome := hrefs k1 e1 h1 _ hm
            have := hbound _ (Or.inr hsome)
            omega
        · rw [if_neg hc2] at h2
          exact hown k1 k2 e1 e2 hne h1 h2
    · intro eid e h
      simp only [aget_ainsert] at h
      by_cases hc : eid = epic_id
      · rw [if_pos hc] at h
        cases h
        show (epic.stories ++ [s.last_item_id + 1]).Pairwise (· < ·)
        rw [List.pairwise_append]
        refine ⟨hsort epic_id epic hef, List.pairwise_singleton _ _, ?_⟩
        intro a ha b hb
        simp at hb
        subst hb
        have hsome := hrefs epic_id epic hef a ha
        have := hbound a (Or.inr hsome)
        omega
      · rw [if_neg hc] at h
        exact hsort eid e h

theorem fullInv_delete_epic {s s' : DBState} {epic_id : Nat}
    (hinv : FullInv s) (heq : delete_epic epic_id s = (.ok (), s')) :
    FullInv s' := by
  obtain ⟨⟨hrefs, hdisj, hbound⟩, hown, hsort⟩ := hinv
  cases hef : aget epic_id s.epics with
  | none => simp [delete_epic, hef] at heq
  | some epic =>
    simp only [delete_epic, hef] at heq
    have hs' : s' = { s with
        stories := epic.stories.foldl (fun m sid => aremove sid m) s.stories,
        epics := aremove epic_id s.epics } := (congrArg Prod.snd heq).symm
    subst hs'
    refine ⟨⟨?_, ?_, ?_⟩, ?_, ?_⟩
    · intro eid e h
      simp only [aget_aremove] at h
      by_cases hc : eid = epic_id
      · rw [if_pos hc] at h
        cases h
      · rw [if_neg hc] at h
        intro sid hm
        simp only [aget_foldl_aremove]
        rw [if_neg (hown eid epic_id e epic hc h hef sid hm)]
        exact hrefs eid e h sid hm
    · intro k h1 h2
      simp only [aget_aremove] at h1
      simp only [aget_foldl_aremove] at h2
      by_cases hc : k = epic_id
      · rw [if_pos hc] at h1
        simp at h1
      · rw [if_neg hc] at h1
        by_cases hm : k ∈ epic.stories
        · rw [if_pos hm] at h2
          simp at h2
        · rw [if_neg hm] at h2
          exact hdisj k h1 h2
    · intro k h
      show k ≤ s.last_item_id
      rcases h with h | h
      · simp only [aget_aremove] at h
        by_cases hc : k = epic_id
        · rw [if_pos hc] at h
          simp at h
        · rw [if_neg hc] at h
          exact hbound k (Or.inl h)
      · simp only [aget_foldl_aremove] at h
        by_cases hm : k ∈ epic.stories
        · rw [if_pos hm] at h
          simp at h
        · rw [if_neg hm] at h
          exact hbound k (Or.inr h)
    · intro k1 k2 e1 e2 hne h1 h2
      simp only [aget_aremove] at h1 h2
      by_cases hc1 : k1 = epic_id
      · rw [if_pos hc1] at h1
        cases h1
      · rw [if_neg hc1] at h1
        by_cases hc2 : k2 = epic_id
        · rw [if_pos hc2] at h2
          cases h2
        · rw [if_neg hc2] at h2
          exact hown k1 k2 e1 e2 hne h1 h2
    · intro eid e h
      simp only [aget_aremove] at h
      by_cases hc : eid = epic_id
      · rw [if_pos hc] at h
        cases h
      · rw [if_neg hc] at h
        exact hsort eid e h

theorem fullInv_delete_story {s s' : DBState} {epic_id story_id : Nat}
    (hinv : FullInv s) (heq : delete_story epic_id story_id s = some (.ok (), s')) :
    FullInv s' := by
  obtain ⟨⟨hrefs, hdisj, hbound⟩, hown, hsort⟩ := hinv
  cases hef : aget epic_id s.epics with
  | none => simp [delete_story, hef] at heq
  | some epic =>
    by_cases hmem : story_id ∈ epic.stories
    · cases hst : aget story_id s.stories with
      | none => simp [delete_story, hef, hmem, hst] at heq
      | some st =>
        cases hbs : binarySearch epic.stories story_id with
        | none => simp [delete_story, hef, hmem, hst, hbs] at heq
        | some idx =>
          simp only [delete_story, hef, hmem, hst, hbs, if_pos] at heq
          have hs' : s' = { s with
              stories := aremove story_id s.stories,
              epics := ainsert epic_id
                { epic with stories := epic.stories.eraseIdx idx } s.epics } := by
            have := congrArg Prod.snd (Option.some.inj heq)
            exact this.symm
          subst hs'
          obtain ⟨hlt, hget⟩ := binarySearch_correct _ _ _ hbs
          have hsub : ∀ x, x ∈ epic.stories.eraseIdx idx → x ∈ epic.stories :=
            fun x hx => List.eraseIdx_subset _ _ hx
          have hnotmem : story_id ∉ epic.stories.eraseIdx idx :=
            getD_not_mem_eraseIdx _ idx story_id (hsort epic_id epic hef) hlt hget
          refine ⟨⟨?_, ?_, ?_⟩, ?_, ?_⟩
          · intro eid e h
            simp only [aget_ainsert] at h
            intro sid hm
            simp only [aget_aremove]
            by_cases hc : eid = epic_id
            · rw [if_pos hc] at h
              cases h
              have hmo : sid ∈ epic.stories := hsub sid hm
              have hne : ¬ sid = story_id := fun hh => hnotmem (hh ▸ hm)
              rw [if_neg hne]
              exact hrefs epic_id epic hef sid hmo
            · rw [if_neg hc] at h
              have hno : sid ∉ epic.stories := hown eid epic_id e epic hc h hef sid hm
              have hne : ¬ sid = story_id := fun hh => hno (hh ▸ hmem)
              rw [if_neg hne]
              exact hrefs eid e h sid hm
          · intro k h1 h2
            simp only [aget_ainsert] at h1
            simp only [aget_aremove] at h2
            by_cases hks : k = story_id
            · rw [if_pos hks] at h2
              simp at h2
            · rw [if_neg hks] at h2
              by_cases hc : k = epic_id
              · subst hc
                exact hdisj k (by simp [hef]) h2
              · rw [if_neg hc] at h1
                exact hdisj k h1 h2
          · intro k h
            show k ≤ s.last_item_id
            rcases h with h | h
            · simp only [aget_ainsert] at h
              by_cases hc : k = epic_id
              · subst hc
                exact hbound k (Or.inl (by simp [hef]))
              · rw [if_neg hc] at h
                exact hbound k (Or.inl h)
            · simp only [aget_aremove] at h
              by_cases hks : k = story_id
              · rw [if_pos hks] at h
                simp at h
              · rw [if_neg hks] at h
                exact hbound k (Or.inr h)
          · intro k1 k2 e1 e2 hne h1 h2
            simp only [aget_ainsert] at h1 h2
            by_cases hc1 : k1 = epic_id
            · rw [if_pos hc1] at h1
              cases h1
              have hc2 : ¬ k2 = epic_id := fun hh => hne (hc1.trans hh.symm)
              rw [if_neg hc2] at h2
              intro sid hm
              exact hown epic_id k2 epic e2 (hc1 ▸ hne) hef h2 sid (hsub sid hm)
            · rw [if_neg hc1] at h1
              by_cases hc2 : k2 = epic_id
              · rw [if_pos hc2] at h2
                cases h2
                intro sid hm hm2
                exact hown k1 epic_id e1 epic (hc2 ▸ hne) h1 hef sid hm (hsub sid hm2)
              · rw [if_neg hc2] at h2
                exact hown k1 k2 e1 e2 hne h1 h2
          · intro eid e h
            simp only [aget_ainsert] at h
            by_cases hc : eid = epic_id
            · rw [if_pos hc] at h
              cases h
              exact List.Pairwise.sublist (List.eraseIdx_sublist _ _)
                (hsort epic_id epic hef)
            · rw [if_neg hc] at h
              exact hsort eid e h
    · simp [delete_story, hef, hmem] at heq

theorem fullInv_update_epic {s s' : DBState} {epic_id : Nat} {st : Status}
    (hinv : FullInv s) (heq : update_epic_status epic_id st s = (.ok (), s')) :
    FullInv s' := by
  obtain ⟨⟨hrefs, hdisj, hbound⟩, hown, hsort⟩ := hinv
  cases hef : aget epic_id s.epics with
  | none => simp [update_epic_status, hef] at heq
  | some epic =>
    simp only [update_epic_status, hef] at heq
    have hs' : s' = { s with
        epics := ainsert epic_id { epic with status := st } s.epics } :=
      (congrArg Prod.snd heq).symm
    subst hs'
    refine ⟨⟨?_, ?_, ?_⟩, ?_, ?_⟩
    · intro eid e h
      simp only [aget_ainsert] at h
      by_cases hc : eid = epic_id
      · rw [if_pos hc] at h
        cases h
        intro sid hm
        exact hrefs epic_id epic hef sid hm
      · rw [if_neg hc] at h
        exact hrefs eid e h
    · intro k h1 h2
      simp only [aget_ainsert] at h1
      by_cases hc : k = epic_id
      · subst hc
        exact hdisj k (by simp [hef]) h2
      · rw [if_neg hc] at h1
        exact hdisj k h1 h2
    · intro k h
      show k ≤ s.last_item_id
      rcases h with h | h
      · simp only [aget_ainsert] at h
        by_cases hc : k = epic_id
        · subst hc
          exact hbound k (Or.inl (by simp [hef]))
        · rw [if_neg hc] at h
          exact hbound k (Or.inl h)
      · exact hbound k (Or.inr h)
    · intro k1 k2 e1 e2 hne h1 h2
      simp only [aget_ainsert] at h1 h2
      by_cases hc1 : k1 = epic_id
      · rw [if_pos hc1] at h1
        cases h1
        have hc2 : ¬ k2 = epic_id := fun hh => hne (hc1.trans hh.symm)
        rw [if_neg hc2] at h2
        intro sid hm
        exact hown epic_id k2 epic e2 (hc1 ▸ hne) hef h2 sid hm
      · rw [if_neg hc1] at h1
        by_cases hc2 : k2 = epic_id
        · rw [if_pos hc2] at h2
          cases h2
          intro sid hm
          exact hown k1 epic_id e1 epic (hc2 ▸ hne) h1 hef sid hm
        · rw [if_neg hc2] at h2
          exact hown k1 k2 e1 e2 hne h1 h2
    · intro eid e h
      simp only [aget_ainsert] at h
      by_cases hc : eid = epic_id
      · rw [if_pos hc] at h
        cases h
        exact hsort epic_id epic hef
      · rw [if_neg hc] at h
        exact hsort eid e h

theorem fullInv_update_story {s s' : DBState} {story_id : Nat} {st : Status}
    (hinv : FullInv s) (heq : update_story_status story_id st s = (.ok (), s')) :
    FullInv s' := by
  obtain ⟨⟨hrefs, hdisj, hbound⟩, hown, hsort⟩ := hinv
  cases hsf : aget story_id s.stories with
  | none => simp [update_story_status, hsf] at heq
  | some story =>
    simp only [update_story_status, hsf] at heq
    have hs' : s' = { s with
        stories := ainsert story_id { story with status := st } s.stories } :=
      (congrArg Prod.snd heq).symm
    subst hs'
    refine ⟨⟨?_, ?_, ?_⟩, ?_, ?_⟩
    · intro eid e h
      intro sid hm
      simp only [aget_ainsert]
      by_cases hc : sid = story_id
      · simp [hc]
      · rw [if_neg hc]
        exact hrefs eid e h sid hm
    · intro k h1 h2
      simp only [aget_ainsert] at h2
      by_cases hc : k = story_id
      · subst hc
        exact hdisj k h1 (by simp [hsf])
      · rw [if_neg hc] at h2
        exact hdisj k h1 h2
    · intro k h
      show k ≤ s.last_item_id
      rcases h with h | h
      · exact hbound k (Or.inl h)
      · simp only [aget_ainsert] at h
        by_cases hc : k = story_id
        · subst hc
          exact hbound k (Or.inr (by simp [hsf]))
        · rw [if_neg hc] at h
          exact hbound k (Or.inr h)
    · exact hown
    · exact hsort

theorem fullInv_reachable {s : DBState} (h : Reachable s) : FullInv s := by
  induction h with
  | init => exact fullInv_init
  | create_epic _ he heq ih => exact fullInv_create_epic ih he heq
  | create_story _ heq ih => exact fullInv_create_story ih heq
  | delete_epic _ heq ih => exact fullInv_delete_epic ih heq
  | delete_story _ heq ih => exact fullInv_delete_story ih heq
  | update_epic_status _ heq ih => exact fullInv_update_epic ih heq
  | update_story_status _ heq ih => exact fullInv_update_story ih heq

theorem reachable_stateWit1 : Reachable stateWit1 := by
  have heq : create_epic epicWit initState = (.ok 1, stateWit1) := rfl
  exact Reachable.create_epic Reachable.init rfl heq

theorem reachable_stateWit2 : Reachable stateWit2 := by
  have heq : create_story storyWit 1 stateWit1 = (.ok 2, stateWit2) := rfl
  exact Reachable.create_story reachable_stateWit1 heq

/-- C1: in every state reachable from the empty state by successful
store operations, every id listed in an epic's `stories` is a key of the
story map, the epic and story key spaces are disjoint, and every key of
either map is at most `last_item_id`. -/
theorem reachable_referential_integrity (s : DBState) (h : Reachable s) :
    (∀ eid epic, aget eid s.epics = some epic →
      ∀ sid ∈ epic.stories, (aget sid s.stories).isSome) ∧
    (∀ k, (aget k s.epics).isSome → (aget k s.stories).isSome → False) ∧
    (∀ k, (aget k s.epics).isSome ∨ (aget k s.stories).isSome → k ≤ s.last_item_id) :=
  (fullInv_reachable h).1

theorem reachable_referential_integrity_witness :
    Reachable stateWit2 ∧
    ((∀ eid epic, aget eid stateWit2.epics = some epic →
      ∀ sid ∈ epic.stories, (aget sid stateWit2.stories).isSome) ∧
    (∀ k, (aget k stateWit2.epics).isSome → (aget k stateWit2.stories).isSome → False) ∧
    (∀ k, (aget k stateWit2.epics).isSome ∨ (aget k stateWit2.stories).isSome →
      k ≤ stateWit2.last_item_id)) :=
  ⟨reachable_stateWit2, reachable_referential_integrity stateWit2 reachable_stateWit2⟩

/-- C9: in every reachable state, each epic's `stories` list is strictly
increasing, so the `binary_search` that `delete_story` runs after its
membership check always succeeds and the `expect` panic branch is
unreachable. -/
theorem reachable_sorted_binary_search (s : DBState) (h : Reachable s)
    (epic_id : Nat) (epic : Epic) (hef : aget epic_id s.epics = some epic) :
    epic.stories.Pairwise (· < ·) ∧
    ∀ story_id ∈ epic.stories, (binarySearch epic.stories story_id).isSome := by
  have hsort := (fullInv_reachable h).2.2 epic_id epic hef
  exact ⟨hsort, fun sid hm => binarySearch_found _ _ hsort hm⟩

theorem reachable_sorted_binary_search_witness :
    Reachable stateWit2 ∧ aget 1 stateWit2.epics = some epicWit2 ∧
    (epicWit2.stories.Pairwise (· < ·) ∧
     ∀ story_id ∈ epicWit2.stories, (binarySearch epicWit2.stories story_id).isSome) :=
  ⟨reachable_stateWit2, rfl,
    reachable_sorted_binary_search stateWit2 reachable_stateWit2 1 epicWit2 rfl⟩

/-! ### JSON round trip -/

theorem charDigit_digitChar {d : Nat} (h : d < 10) :
    charDigit (digitChar d) = some d := by
  interval_cases d <;> decide

theorem traverseOpt_charDigit (ds : List Nat) (h : ∀ d ∈ ds, d < 10) :
    traverseOpt charDigit (ds.map digitChar) = some ds := by
  induction ds with
  | nil => rfl
  | cons d rest ih =>
    have hd := charDigit_digitChar (h d (List.mem_cons_self d rest))
    have hr := ih (fun x hx => h x (List.mem_cons_of_mem _ hx))
    simp [traverseOpt, hd, hr]

theorem keyToNat_natKeyString (n : Nat) : keyToNat (natKeyString n) = some n := by
  by_cases h0 : n = 0
  · subst h0
    decide
  · have hne : Nat.digits 10 n ≠ [] := Nat.digits_ne_nil_iff_ne_zero.mpr h0
    have hlt : ∀ d ∈ (Nat.digits 10 n).reverse, d < 10 := by
      intro d hd
      exact Nat.digits_lt_base (by omega) (List.mem_reverse.mp hd)
    unfold natKeyString
    rw [if_neg h0]
    unfold keyToNat
    have hdata : (String.mk ((Nat.digits 10 n).reverse.map digitChar)).data
        = (Nat.digits 10 n).reverse.map digitChar := rfl
    rw [hdata]
    have hempty : (((Nat.digits 10 n).reverse.map digitChar).isEmpty = true) ↔ False := by
      simp [List.isEmpty_iff, hne]
    rw [if_neg (fun hh => hempty.mp hh)]
    rw [traverseOpt_charDigit _ hlt]
    simp only [List.reverse_reverse, Nat.ofDigits_digits]

theorem statusFromJson_statusToJson (st : Status) :
    statusFromJson (statusToJson st) = some st := by
  cases st <;> rfl

theorem storyFromJson_storyToJson (st : Story) :
    storyFromJson (storyToJson st) = some st := by
  cases st with
  | mk name description status => cases status <;> rfl

theorem traverseOpt_numFromJson (ids : List Nat) :
    traverseOpt numFromJson (ids.map Json.num) = some ids := by
  induction ids with
  | nil => rfl
  | cons i rest ih => simp [traverseOpt, numFromJson, ih]

theorem epicFromJson_epicToJson (e : Epic) :
    epicFromJson (epicToJson e) = some e := by
  cases e with
  | mk name description status stories =>
    cases status <;>
      simp [epicFromJson, epicToJson, jGet, statusToJson, statusFromJson,
        traverseOpt_numFromJson]

theorem traverseOpt_entry {α : Type} (f : α → Json) (g : Json → Option α)
    (hfg : ∀ v, g (f v) = some v) (l : List (Nat × α)) :
    traverseOpt (entryFromJson g) (l.map (fun p => (natKeyString p.1, f p.2))) = some l := by
  induction l with
  | nil => rfl
  | cons p rest ih =>
    simp [traverseOpt, entryFromJson, keyToNat_natKeyString, hfg, ih]

theorem mapFromJson_mapToJson {α : Type} (f : α → Json) (g : Json → Option α)
    (hfg : ∀ v, g (f v) = some v) (l : List (Nat × α)) :
    mapFromJson g (mapToJson f l) = some l := by
  unfold mapToJson mapFromJson
  exact traverseOpt_entry f g hfg l

/-- C8: serializing a `DBState` the way `JSONFileDatabase::write_db`
does and deserializing the resulting JSON document the way `read_db`
does yields the original value. -/
theorem json_round_trip (s : DBState) : dbStateFromJson (dbStateToJson s) = some s := by
  cases s with
  | mk last epics stories =>
    simp [dbStateToJson, dbStateFromJson, jGet,
      mapFromJson_mapToJson epicToJson epicFromJson epicFromJson_epicToJson,
      mapFromJson_mapToJson storyToJson storyFromJson storyFromJson_storyToJson]
